import Mathlib

/-!
Verification of the SWRC (stale-while-revalidate cache) core, a shallow
embedding of `src/index.ts`.

Modelling conventions:
* `Timestamp` is `Nat` (whole seconds since an arbitrary epoch, as in the
  source's `currentTimestamp`). The ambient clock (`currentTimestamp()`)
  is passed explicitly as a `now : Nat` argument.
* The JavaScript `Map` backing `Handle.cache` is an association list with
  `mapGet` / `mapSet` / `mapDelete` mirroring `Map.get` / `Map.set` /
  `Map.delete` (set replaces in place, preserving insertion order).
* Promises are identified by `Nat` ids. A loader invocation allocates a
  fresh id (`freshP`); awaiting a promise is modelled by `finalizeRet`,
  which consults a map from promise ids to outcomes.
* The synchronous prefix of `lookup` (everything before the first `await`)
  is `lookupStep`; the success and failure continuations attached to the
  loader's promise in `startLoading` / `startRevalidating` are
  `loadSuccess`, `loadFailure` and `revalidateFailure`.
* The evictor's `setTimeout` callback is `evictorFire`; the scheduled
  timer is `Option (EvictorT SK)` carrying `runAt` and the captured
  `keyValue` (standing in for the `timeoutId` closure).
-/

set_option autoImplicit false

namespace SWRC

/-- Freshness classification, the source's `type State = "Fresh" | "Stale" | "Expired"`. -/
inductive State where
  | Fresh
  | Stale
  | Expired
deriving DecidableEq, Repr

/-- The optional per-entry cache-control settings of `Result<V>`:
`{ maxAge?: number, staleWhileRevalidate?: number }`, both optional. -/
structure CacheControl where
  maxAge : Option Nat
  staleWhileRevalidate : Option Nat
deriving DecidableEq, Repr

/-- `Result<V> = { value: V, cacheControl?: ... }`. -/
structure Result (V : Type) where
  value : V
  cacheControl : Option CacheControl
deriving DecidableEq, Repr

/-- The destructuring `const { maxAge = 0 } = result.cacheControl ?? {}`:
the effective `maxAge`, defaulting to 0 at either level of absence. -/
def effMaxAge {V : Type} (result : Result V) : Nat :=
  match result.cacheControl with
  | none => 0
  | some cc => cc.maxAge.getD 0

/-- The destructuring `const { staleWhileRevalidate = 0 } = result.cacheControl ?? {}`:
the effective `staleWhileRevalidate`, defaulting to 0 at either level of absence. -/
def effSwr {V : Type} (result : Result V) : Nat :=
  match result.cacheControl with
  | none => 0
  | some cc => cc.staleWhileRevalidate.getD 0

/-- The source's `cacheEntryState(cacheEntry: Present | Revalidating)`.
The entry's fields `result` and `createdAt` are passed directly, and the
ambient `currentTimestamp()` is the explicit `now` argument.  Mirrors the
`switch (true)` chain of the source. -/
def cacheEntryState {V : Type} (now : Nat) (result : Result V) (createdAt : Nat) : State :=
  if now ≤ createdAt + effMaxAge result then State.Fresh
  else if now ≤ createdAt + effMaxAge result + effSwr result then State.Stale
  else State.Expired

/-- A cache entry: `Loading { key, promise } | Present { key, result, createdAt }
| Revalidating { key, result, createdAt, promise }`. -/
inductive CacheEntry (K V : Type) where
  | Loading (key : K) (promise : Nat)
  | Present (key : K) (result : Result V) (createdAt : Nat)
  | Revalidating (key : K) (result : Result V) (createdAt : Nat) (promise : Nat)
deriving DecidableEq, Repr

/-- `mkLoading(key, promise)`. -/
def mkLoading {K V : Type} (key : K) (promise : Nat) : CacheEntry K V :=
  CacheEntry.Loading key promise

/-- `mkPresent(key, result)`; `createdAt = currentTimestamp()` is the explicit `now`. -/
def mkPresent {K V : Type} (key : K) (result : Result V) (now : Nat) : CacheEntry K V :=
  CacheEntry.Present key result now

/-- `mkRevalidating(cacheEntry, promise)`: copies `key`, `result`, `createdAt`
from the given `Present` entry's fields and attaches the promise. -/
def mkRevalidating {K V : Type} (key : K) (result : Result V) (createdAt : Nat)
    (promise : Nat) : CacheEntry K V :=
  CacheEntry.Revalidating key result createdAt promise

section MapModel

variable {SK E : Type} [DecidableEq SK]

/-- `Map.get`. -/
def mapGet : List (SK × E) → SK → Option E
  | [], _ => none
  | (k', v') :: rest, k => if k' = k then some v' else mapGet rest k

/-- `Map.set`: replaces the value in place if the key exists, else appends. -/
def mapSet : List (SK × E) → SK → E → List (SK × E)
  | [], k, v => [(k, v)]
  | (k', v') :: rest, k, v =>
    if k' = k then (k, v) :: rest else (k', v') :: mapSet rest k v

/-- `Map.delete`: removes the entry with the given key (keys are unique). -/
def mapDelete : List (SK × E) → SK → List (SK × E)
  | [], _ => []
  | (k', v') :: rest, k => if k' = k then rest else (k', v') :: mapDelete rest k

theorem mapGet_mapSet_self (m : List (SK × E)) (k : SK) (v : E) :
    mapGet (mapSet m k v) k = some v := by
  induction m with
  | nil => simp [mapGet, mapSet]
  | cons hd tl ih =>
    obtain ⟨k', v'⟩ := hd
    by_cases h : k' = k
    · subst h; simp [mapGet, mapSet]
    · simp [mapGet, mapSet, h, ih]

/-- A JavaScript `Map` holds each key at most once; the association lists we
reason about all satisfy this. -/
def keysNodup (m : List (SK × E)) : Prop := (m.map Prod.fst).Nodup

omit [DecidableEq SK] in
theorem keysNodup_nil : keysNodup ([] : List (SK × E)) := List.nodup_nil

theorem mapGet_eq_none_of_not_mem_keys (m : List (SK × E)) (k : SK)
    (h : k ∉ m.map Prod.fst) : mapGet m k = none := by
  induction m with
  | nil => rfl
  | cons hd tl ih =>
    obtain ⟨k', v'⟩ := hd
    simp only [List.map_cons, List.mem_cons, not_or] at h
    have hne : ¬ k' = k := fun hq => h.1 hq.symm
    simp [mapGet, hne, ih h.2]

theorem mapGet_mapDelete_self (m : List (SK × E)) (k : SK) (hnd : keysNodup m) :
    mapGet (mapDelete m k) k = none := by
  induction m with
  | nil => rfl
  | cons hd tl ih =>
    obtain ⟨k', v'⟩ := hd
    simp only [keysNodup, List.map_cons, List.nodup_cons] at hnd
    by_cases h : k' = k
    · subst h
      simpa [mapDelete] using mapGet_eq_none_of_not_mem_keys tl k' hnd.1
    · simp [mapDelete, mapGet, h, ih hnd.2]

theorem keys_mapSet (m : List (SK × E)) (k : SK) (v : E) :
    (mapSet m k v).map Prod.fst =
      if k ∈ m.map Prod.fst then m.map Prod.fst else m.map Prod.fst ++ [k] := by
  induction m with
  | nil => simp [mapSet]
  | cons hd tl ih =>
    obtain ⟨k', v'⟩ := hd
    by_cases h : k' = k
    · subst h; simp [mapSet]
    · have h' : ¬ k = k' := fun hq => h hq.symm
      by_cases hk : k ∈ tl.map Prod.fst <;>
        simp [mapSet, h, h', hk, ih]

theorem keysNodup_mapSet (m : List (SK × E)) (k : SK) (v : E) (hnd : keysNodup m) :
    keysNodup (mapSet m k v) := by
  unfold keysNodup at *
  rw [keys_mapSet]
  by_cases hk : k ∈ m.map Prod.fst
  · simpa [hk] using hnd
  · simp only [hk, if_false]
    refine List.Nodup.append hnd (List.nodup_singleton k) ?_
    intro a ha hb
    rw [List.mem_singleton] at hb
    subst hb
    exact hk ha

theorem mapGet_mapSet_ne (m : List (SK × E)) (k k' : SK) (v : E) (h : k ≠ k') :
    mapGet (mapSet m k v) k' = mapGet m k' := by
  induction m with
  | nil => simp [mapGet, mapSet, h]
  | cons hd tl ih =>
    obtain ⟨k0, v0⟩ := hd
    by_cases h0 : k0 = k
    · subst h0; simp [mapGet, mapSet, h]
    · simp [mapGet, mapSet, h0, ih]

end MapModel

/-- `createdAt + maxAge + staleWhileRevalidate`: the `runAt` computed by
`scheduleEvictor` for a `Present` entry. -/
def entryRunAt {V : Type} (result : Result V) (createdAt : Nat) : Nat :=
  createdAt + effMaxAge result + effSwr result

/-- The `Handle.evictor` record `{ runAt, timeoutId }`.  The `timeoutId`
closure is represented by the `keyValue` it captured (the key the timer
will try to evict when it fires). -/
structure EvictorT (SK : Type) where
  runAt : Nat
  keyValue : SK
deriving DecidableEq, Repr

/-- The synchronous body of `scheduleEvictor(h, keyValue, cacheEntry)`:
computes `runAt` from the `Present` entry's `result`/`createdAt` and
replaces the pending timer iff there is none or the pending one fires
later (`h.evictor.runAt > runAt`). -/
def scheduleEvictor {V SK : Type} (ev : Option (EvictorT SK)) (keyValue : SK)
    (result : Result V) (createdAt : Nat) : Option (EvictorT SK) :=
  let runAt := entryRunAt result createdAt
  match ev with
  | none => some ⟨runAt, keyValue⟩
  | some e => if e.runAt > runAt then some ⟨runAt, keyValue⟩ else some e

/-- Insertion step for `sortBy`. -/
def sortInsert {α : Type} (le : α → α → Bool) (a : α) : List α → List α
  | [] => [a]
  | b :: bs => if le a b then a :: b :: bs else b :: sortInsert le a bs

/-- A stable comparison sort, modelling JavaScript `Array.prototype.sort`
with a total comparator. -/
def sortBy {α : Type} (le : α → α → Bool) : List α → List α
  | [] => []
  | a :: as => sortInsert le a (sortBy le as)

/-- One element of the `entries` array the evictor's timer callback builds:
`{ keyValue, cacheEntry, runAt }` for a `Present` entry (the entry is kept
as its `result`/`createdAt` fields). -/
structure Candidate (SK V : Type) where
  keyValue : SK
  result : Result V
  createdAt : Nat
  runAt : Nat
deriving DecidableEq, Repr

/-- The evictor timer's `setTimeout` callback (source lines 183–224), fired
for the `keyValue` captured at scheduling time.  It clears `h.evictor`,
deletes the entry at `keyValue` iff it is (still) of kind `Present`,
collects `{keyValue, cacheEntry, runAt}` for every remaining `Present`
entry, sorts them with the comparator `(a, b) => b.runAt - a.runAt`
(descending `runAt`), and, if any remain, calls `scheduleEvictor` on the
head (with the evictor field just cleared, i.e. `none`). -/
def evictorFire {K V SK : Type} [DecidableEq SK]
    (cache : List (SK × CacheEntry K V)) (keyValue : SK) :
    List (SK × CacheEntry K V) × Option (EvictorT SK) :=
  let cache1 :=
    match mapGet cache keyValue with
    | some (CacheEntry.Present _ _ _) => mapDelete cache keyValue
    | _ => cache
  let entries := cache1.filterMap fun kv =>
    match kv.2 with
    | CacheEntry.Loading _ _ => none
    | CacheEntry.Present _ r cA => some (Candidate.mk kv.1 r cA (entryRunAt r cA))
    | CacheEntry.Revalidating _ _ _ _ => none
  let sorted := sortBy (fun a b => decide (b.runAt ≤ a.runAt)) entries
  (cache1,
    match sorted with
    | [] => none
    | head :: _ => scheduleEvictor none head.keyValue head.result head.createdAt)

/-- What a `lookup` call hands back to its caller, before promise
resolution: either an already-resolved `{ cacheEntry, state }`, or the
promise id the caller is `.then`-chained onto. -/
inductive LookupRet (K V : Type) where
  | immediate (cacheEntry : CacheEntry K V) (state : State)
  | awaitP (promise : Nat)
deriving DecidableEq, Repr

/-- The effect of the synchronous prefix of one `lookup` call: the cache
after its synchronous mutations, the promise id of a loader invocation it
started (`none` when no loader was invoked), and what it returns. -/
structure StepResult (K V SK : Type) where
  cache : List (SK × CacheEntry K V)
  newLoad : Option Nat
  ret : LookupRet K V
deriving DecidableEq, Repr

/-- The synchronous part of `startLoading()`: invoke the loader (promise id
`freshP`), store a `Loading` entry under `storeKey`, and return the
`.then`-chained promise. -/
def startLoading {K V SK : Type} [DecidableEq SK]
    (cache : List (SK × CacheEntry K V)) (storeKey : SK) (key : K) (freshP : Nat) :
    StepResult K V SK :=
  ⟨mapSet cache storeKey (mkLoading key freshP), some freshP, LookupRet.awaitP freshP⟩

/-- The synchronous prefix of `lookup(h, key)` (everything up to the first
`await`): the case analysis on `(kind, state)` from source lines 259–354.
`now` is `currentTimestamp()`, `freshP` the promise id a new loader
invocation would get. -/
def lookupStep {K V SK : Type} [DecidableEq SK] (storeKeyFn : K → SK)
    (cache : List (SK × CacheEntry K V)) (key : K) (now : Nat) (freshP : Nat) :
    StepResult K V SK :=
  let storeKey := storeKeyFn key
  match mapGet cache storeKey with
  | none => startLoading cache storeKey key freshP
  | some cacheEntry =>
    match cacheEntry with
    | CacheEntry.Loading _ p =>
      ⟨cache, none, LookupRet.awaitP p⟩
    | CacheEntry.Present k r cA =>
      match cacheEntryState now r cA with
      | State.Fresh =>
        ⟨cache, none, LookupRet.immediate (CacheEntry.Present k r cA) State.Fresh⟩
      | State.Stale =>
        ⟨mapSet cache storeKey (mkRevalidating k r cA freshP), some freshP,
          LookupRet.immediate (CacheEntry.Present k r cA) State.Stale⟩
      | State.Expired => startLoading cache storeKey key freshP
    | CacheEntry.Revalidating k r cA p =>
      match cacheEntryState now r cA with
      | State.Fresh =>
        ⟨cache, none, LookupRet.immediate (CacheEntry.Revalidating k r cA p) State.Fresh⟩
      | State.Stale =>
        ⟨cache, none, LookupRet.immediate (CacheEntry.Revalidating k r cA p) State.Stale⟩
      | State.Expired =>
        ⟨mapSet cache storeKey (mkLoading key p), none, LookupRet.awaitP p⟩

/-- The `.then` success continuation shared by `startLoading` and
`startRevalidating` (source lines 357–365 and 380–388): build a `Present`
entry with `createdAt = currentTimestamp()`, store it, notify the evictor.
Returns the updated cache and evictor; the built entry is what the shared
promise resolves with. -/
def loadSuccess {K V SK : Type} [DecidableEq SK]
    (cache : List (SK × CacheEntry K V)) (ev : Option (EvictorT SK))
    (storeKey : SK) (key : K) (result : Result V) (now : Nat) :
    List (SK × CacheEntry K V) × Option (EvictorT SK) :=
  (mapSet cache storeKey (mkPresent key result now), scheduleEvictor ev storeKey result now)

/-- The `.catch` continuation of `startLoading` (source lines 367–369):
remove the entry from the cache. -/
def loadFailure {K V SK : Type} [DecidableEq SK]
    (cache : List (SK × CacheEntry K V)) (storeKey : SK) :
    List (SK × CacheEntry K V) :=
  mapDelete cache storeKey

/-- The `.catch` continuation of `startRevalidating` (source lines 390–405).
It captured the pre-revalidation `Present` entry (`key`, `result`,
`createdAt`); at failure time (`now`) it re-classifies that entry, deletes
the store slot if `Expired` and otherwise restores the old entry, then
calls `scheduleEvictor` with the old entry (in both branches). -/
def revalidateFailure {K V SK : Type} [DecidableEq SK]
    (cache : List (SK × CacheEntry K V)) (ev : Option (EvictorT SK))
    (storeKey : SK) (key : K) (result : Result V) (createdAt : Nat) (now : Nat) :
    List (SK × CacheEntry K V) × Option (EvictorT SK) :=
  let state := cacheEntryState now result createdAt
  let cache' :=
    if state = State.Expired then mapDelete cache storeKey
    else mapSet cache storeKey (CacheEntry.Present key result createdAt)
  (cache', scheduleEvictor ev storeKey result createdAt)

/-- Outcome of a promise, indexed by id. -/
inductive POutcome (K V : Type) where
  | pending
  | resolved (key : K) (result : Result V) (createdAt : Nat)
  | rejected (err : Nat)
deriving DecidableEq, Repr

/-- What a caller of `lookup` finally observes, given the outcomes of all
promises and the time `resolveNow` at which an awaited promise resolves:
an `immediate` return is already a value; an awaited promise propagates
its rejection verbatim, and on resolution with a `Present` entry yields
`{ cacheEntry, state: cacheEntryState(cacheEntry) }` classified at
resolution time (the `.then` at source lines 294–297, 339–342, 373–376).
`none` while the awaited promise is still pending. -/
def finalizeRet {K V : Type} (ret : LookupRet K V) (outcome : Nat → POutcome K V)
    (resolveNow : Nat) : Option (Except Nat (CacheEntry K V × State)) :=
  match ret with
  | LookupRet.immediate e s => some (Except.ok (e, s))
  | LookupRet.awaitP p =>
    match outcome p with
    | POutcome.pending => none
    | POutcome.resolved k r cA =>
      some (Except.ok (CacheEntry.Present k r cA, cacheEntryState resolveNow r cA))
    | POutcome.rejected err => some (Except.error err)

/-! ## Theorems -/

/-- C4: for every `now`, `createdAt` and cache-control settings (absent fields
defaulting to 0), `cacheEntryState` returns `Fresh` iff
`now ≤ createdAt + maxAge`, `Stale` iff
`createdAt + maxAge < now ≤ createdAt + maxAge + staleWhileRevalidate`, and
`Expired` iff `now > createdAt + maxAge + staleWhileRevalidate`. -/
theorem cacheEntryState_boundaries {V : Type} (now createdAt : Nat) (r : Result V) :
    (cacheEntryState now r createdAt = State.Fresh ↔
      now ≤ createdAt + effMaxAge r) ∧
    (cacheEntryState now r createdAt = State.Stale ↔
      (createdAt + effMaxAge r < now ∧ now ≤ createdAt + effMaxAge r + effSwr r)) ∧
    (cacheEntryState now r createdAt = State.Expired ↔
      createdAt + effMaxAge r + effSwr r < now) := by
  unfold cacheEntryState
  split_ifs with h1 h2 <;> simp <;> omega

/-- The total order `Fresh < Stale < Expired` on freshness states, as a rank. -/
def stateRank : State → Nat
  | State.Fresh => 0
  | State.Stale => 1
  | State.Expired => 2

/-- C9: for a fixed entry, the freshness classification is monotone in the
current time with respect to the order `Fresh < Stale < Expired`: an entry
never moves back from `Stale` to `Fresh` or from `Expired` to `Stale`/`Fresh`
without a new load. -/
theorem cacheEntryState_monotone {V : Type} (r : Result V) (createdAt now1 now2 : Nat)
    (h : now1 ≤ now2) :
    stateRank (cacheEntryState now1 r createdAt) ≤
      stateRank (cacheEntryState now2 r createdAt) := by
  unfold cacheEntryState
  by_cases h1 : now1 ≤ createdAt + effMaxAge r <;>
    by_cases h2 : now1 ≤ createdAt + effMaxAge r + effSwr r <;>
    by_cases h3 : now2 ≤ createdAt + effMaxAge r <;>
    by_cases h4 : now2 ≤ createdAt + effMaxAge r + effSwr r <;>
    simp only [h1, h2, h3, h4, if_true, if_false, stateRank] <;>
    omega

/-- Witness for C9 at a concrete entry and pair of times. -/
theorem cacheEntryState_monotone_witness :
    stateRank (cacheEntryState 3 (Result.mk (42 : Nat) (some ⟨some 2, some 3⟩)) 0) ≤
      stateRank (cacheEntryState 7 (Result.mk (42 : Nat) (some ⟨some 2, some 3⟩)) 0) :=
  cacheEntryState_monotone (Result.mk (42 : Nat) (some ⟨some 2, some 3⟩)) 0 3 7 (by decide)

/-- A `Result` with no `cacheControl` at all. -/
def noCCResult : Result Nat := ⟨42, none⟩

/-- C2 counterexample: for a `Result` with no `cacheControl`, at
`now = createdAt = 0` (so `now ≥ createdAt`) the classification IS `Fresh`,
contradicting the claim that such an entry is immediately `Stale` (not
`Fresh`) for every `now ≥ createdAt`.  (This matches the repository's own
first test, which asserts `Fresh` on the initial lookup of a loader that
returns no `cacheControl`.) -/
theorem noCacheControl_fresh_at_creation :
    noCCResult.cacheControl = none ∧ 0 ≥ (0 : Nat) ∧
      cacheEntryState 0 noCCResult 0 = State.Fresh := by decide

/-- C2 amended: a `Result` with no `cacheControl` behaves as `maxAge = 0` and
`staleWhileRevalidate = 0`; the entry is `Fresh` exactly while
`now ≤ createdAt` (in particular at the creation instant) and `Expired` for
every `now > createdAt`; it is never classified `Stale`. -/
theorem noCacheControl_behavior {V : Type} (r : Result V) (now createdAt : Nat)
    (h : r.cacheControl = none) :
    cacheEntryState now r createdAt =
      (if now ≤ createdAt then State.Fresh else State.Expired) ∧
    cacheEntryState now r createdAt ≠ State.Stale ∧
    cacheEntryState now r createdAt =
      cacheEntryState now (Result.mk r.value (some ⟨some 0, some 0⟩)) createdAt := by
  have hm : effMaxAge r = 0 := by simp [effMaxAge, h]
  have hs : effSwr r = 0 := by simp [effSwr, h]
  unfold cacheEntryState
  rw [hm, hs]
  by_cases hle : now ≤ createdAt <;>
    simp [hle, effMaxAge, effSwr]

/-- Witness for C2's amended theorem at a concrete result and times. -/
theorem noCacheControl_behavior_witness :
    cacheEntryState 5 noCCResult 3 =
      (if 5 ≤ 3 then State.Fresh else State.Expired) ∧
    cacheEntryState 5 noCCResult 3 ≠ State.Stale ∧
    cacheEntryState 5 noCCResult 3 =
      cacheEntryState 5 (Result.mk noCCResult.value (some ⟨some 0, some 0⟩)) 3 :=
  noCacheControl_behavior noCCResult 5 3 rfl

/-- A result whose entry, created at time 0, has `runAt = 10`. -/
def r10 : Result Nat := ⟨100, some ⟨some 4, some 6⟩⟩

/-- A result whose entry, created at time 0, has `runAt = 20`. -/
def r20 : Result Nat := ⟨200, some ⟨some 8, some 12⟩⟩

/-- A store holding two `Present` entries: key 1 with `runAt = 10` and key 2
with `runAt = 20`. -/
def fireDemoCache : List (Nat × CacheEntry Nat Nat) :=
  [(1, CacheEntry.Present 1 r10 0), (2, CacheEntry.Present 2 r20 0)]

/-- C1: when the eviction timer fires (here: armed for key 0, whose entry is
gone) and `Present` entries remain, the next timer is NOT scheduled for the
minimum `runAt`: with remaining entries of `runAt` 10 and 20 the callback
sorts candidates by `runAt` descending (`(a, b) => b.runAt - a.runAt`) and
schedules the head, i.e. `runAt = 20` for key 2, although key 1's entry
(`runAt = 10 < 20`) expires first.  This contradicts both the claimed
invariant and the source's own doc comment ("a timer which fires when the
next cache entry needs to be evicted"). -/
theorem evictorFire_schedules_maximum :
    (evictorFire fireDemoCache 0).2 = some ⟨20, 2⟩ ∧
    (evictorFire fireDemoCache 0).1 = fireDemoCache ∧
    mapGet fireDemoCache 1 = some (CacheEntry.Present 1 r10 0) ∧
    entryRunAt r10 0 = 10 ∧ entryRunAt r20 0 = 20 ∧ (10 : Nat) < 20 := by decide

/-- A result with `maxAge = 10`, `staleWhileRevalidate = 5`. -/
def rSup : Result Nat := ⟨7, some ⟨some 10, some 5⟩⟩

/-- A store whose single entry at key 1 is a `Present` entry from a newer
load (`createdAt = 15`, so `runAt = 30`), while the fired timer was armed
for an older, superseded entry at key 1. -/
def supersededCache : List (Nat × CacheEntry Nat Nat) :=
  [(1, CacheEntry.Present 1 rSup 15)]

/-- C3 counterexample: a timer armed for an older entry of key 1 fires while
key 1 holds a `Present` entry produced by a newer load (`createdAt = 15`,
`runAt = 30`, not yet expired at fire time); the claim says such a
superseded entry is left in place, but the callback only checks
`kind === "Present"` and removes it. -/
theorem evictorFire_removes_superseded :
    mapGet supersededCache 1 = some (CacheEntry.Present 1 rSup 15) ∧
    mapGet (evictorFire supersededCache 1).1 1 = none := by decide

/-- C3 amended: when the eviction timer fires for a key, the entry at that
key is removed from the Store iff it is still present with kind `Present`;
`Loading` and `Revalidating` entries are left in place, but whether a
`Present` entry was produced by a newer load (superseded) is not
considered — such an entry is removed too. -/
theorem evictorFire_delete_rule {K V SK : Type} [DecidableEq SK]
    (cache : List (SK × CacheEntry K V)) (keyValue : SK) (hnd : keysNodup cache) :
    mapGet (evictorFire cache keyValue).1 keyValue =
      match mapGet cache keyValue with
      | some (CacheEntry.Present _ _ _) => none
      | x => x := by
  unfold evictorFire
  cases hget : mapGet cache keyValue with
  | none => simp [hget]
  | some e => cases e <;> simp [hget, mapGet_mapDelete_self cache keyValue hnd]

/-- Witness for C3's amended theorem: firing on a key holding a
`Revalidating` entry leaves it in place. -/
theorem evictorFire_delete_rule_witness :
    mapGet (evictorFire [((1 : Nat), CacheEntry.Revalidating 1 rSup 15 9)] 1).1 1 =
      some (CacheEntry.Revalidating 1 rSup 15 9) :=
  evictorFire_delete_rule [((1 : Nat), CacheEntry.Revalidating 1 rSup 15 9)] 1
    (by unfold keysNodup; decide)

section StepLemmas

variable {K V SK : Type} [DecidableEq SK] (storeKeyFn : K → SK)
variable (cache : List (SK × CacheEntry K V)) (key : K) (now freshP : Nat)

theorem lookupStep_none (hget : mapGet cache (storeKeyFn key) = none) :
    lookupStep storeKeyFn cache key now freshP =
      startLoading cache (storeKeyFn key) key freshP := by
  simp [lookupStep, hget]

theorem lookupStep_loading (k : K) (p : Nat)
    (hget : mapGet cache (storeKeyFn key) = some (CacheEntry.Loading k p)) :
    lookupStep storeKeyFn cache key now freshP = ⟨cache, none, LookupRet.awaitP p⟩ := by
  simp [lookupStep, hget]

theorem lookupStep_present_expired (k : K) (r : Result V) (cA : Nat)
    (hget : mapGet cache (storeKeyFn key) = some (CacheEntry.Present k r cA))
    (hst : cacheEntryState now r cA = State.Expired) :
    lookupStep storeKeyFn cache key now freshP =
      startLoading cache (storeKeyFn key) key freshP := by
  simp [lookupStep, hget, hst]

theorem lookupStep_revalidating_usable (k : K) (r : Result V) (cA p : Nat)
    (hget : mapGet cache (storeKeyFn key) = some (CacheEntry.Revalidating k r cA p))
    (hst : cacheEntryState now r cA ≠ State.Expired) :
    lookupStep storeKeyFn cache key now freshP =
      ⟨cache, none,
        LookupRet.immediate (CacheEntry.Revalidating k r cA p)
          (cacheEntryState now r cA)⟩ := by
  cases hcs : cacheEntryState now r cA with
  | Expired => exact absurd hcs hst
  | Fresh => simp [lookupStep, hget, hcs]
  | Stale => simp [lookupStep, hget, hcs]

end StepLemmas

/-- Specification predicate (C7's precondition): the lookup finds a
`Loading` entry (any freshness), a `Fresh` entry (`Present` or
`Revalidating`), or a `Revalidating` entry classified `Stale`. -/
def dedupCase {K V : Type} (e : Option (CacheEntry K V)) (now : Nat) : Prop :=
  match e with
  | some (CacheEntry.Loading _ _) => True
  | some (CacheEntry.Present _ r cA) => cacheEntryState now r cA = State.Fresh
  | some (CacheEntry.Revalidating _ r cA _) => cacheEntryState now r cA ≠ State.Expired
  | none => False

/-- Specification function (C7's promised return): in the `Loading` case the
lookup awaits the entry's shared future; in the `Fresh` and
`Revalidating`-`Stale` cases it returns the current entry and its state
immediately. -/
def dedupRet {K V : Type} (e : Option (CacheEntry K V)) (now : Nat) :
    Option (LookupRet K V) :=
  match e with
  | some (CacheEntry.Loading _ p) => some (LookupRet.awaitP p)
  | some (CacheEntry.Present k r cA) =>
    some (LookupRet.immediate (CacheEntry.Present k r cA) (cacheEntryState now r cA))
  | some (CacheEntry.Revalidating k r cA p) =>
    some (LookupRet.immediate (CacheEntry.Revalidating k r cA p) (cacheEntryState now r cA))
  | none => none

/-- C7: a lookup that finds a `Loading` entry, a `Fresh` entry (`Present` or
`Revalidating`), or a `Revalidating` entry classified `Stale` starts no new
loader invocation and leaves the Store unchanged; the `Loading` case returns
the entry's shared future (whose resolution yields the eventual `Present`
entry classified at resolution time), the others return the current entry
and its state immediately. -/
theorem lookup_dedup_frame {K V SK : Type} [DecidableEq SK] (storeKeyFn : K → SK)
    (cache : List (SK × CacheEntry K V)) (key : K) (now freshP : Nat)
    (h : dedupCase (mapGet cache (storeKeyFn key)) now) :
    (lookupStep storeKeyFn cache key now freshP).cache = cache ∧
    (lookupStep storeKeyFn cache key now freshP).newLoad = none ∧
    some (lookupStep storeKeyFn cache key now freshP).ret =
      dedupRet (mapGet cache (storeKeyFn key)) now ∧
    (∀ p k0 r0 c0 outcome rNow,
      (lookupStep storeKeyFn cache key now freshP).ret = LookupRet.awaitP p →
      outcome p = POutcome.resolved k0 r0 c0 →
      finalizeRet (lookupStep storeKeyFn cache key now freshP).ret outcome rNow =
        some (Except.ok (CacheEntry.Present k0 r0 c0, cacheEntryState rNow r0 c0))) := by
  have hfin : ∀ (ret : LookupRet K V), ∀ p k0 r0 c0 outcome rNow,
      ret = LookupRet.awaitP p → outcome p = POutcome.resolved k0 r0 c0 →
      finalizeRet ret outcome rNow =
        some (Except.ok (CacheEntry.Present k0 r0 c0, cacheEntryState rNow r0 c0)) := by
    intro ret p k0 r0 c0 outcome rNow hret hout
    subst hret
    simp [finalizeRet, hout]
  cases hget : mapGet cache (storeKeyFn key) with
  | none => rw [hget] at h; exact absurd h (by simp [dedupCase])
  | some e =>
    rw [hget] at h
    cases e with
    | Loading k p =>
      refine ⟨?_, ?_, ?_, fun p' => hfin _ p'⟩ <;> simp [lookupStep, hget, dedupRet]
    | Present k r cA =>
      have hst : cacheEntryState now r cA = State.Fresh := h
      refine ⟨?_, ?_, ?_, fun p' => hfin _ p'⟩ <;>
        simp [lookupStep, hget, hst, dedupRet]
    | Revalidating k r cA p =>
      have hst : cacheEntryState now r cA ≠ State.Expired := h
      cases hcs : cacheEntryState now r cA with
      | Expired => exact absurd hcs hst
      | Fresh =>
        refine ⟨?_, ?_, ?_, fun p' => hfin _ p'⟩ <;>
          simp [lookupStep, hget, hcs, dedupRet]
      | Stale =>
        refine ⟨?_, ?_, ?_, fun p' => hfin _ p'⟩ <;>
          simp [lookupStep, hget, hcs, dedupRet]

/-- Witness for C7: a concrete lookup on a `Loading` entry changes nothing,
starts no load, and returns the shared future (promise 5). -/
theorem lookup_dedup_frame_witness :
    (lookupStep (fun k => k) [((1 : Nat), CacheEntry.Loading (V := Nat) 1 5)] 1 0 9).cache
        = [((1 : Nat), CacheEntry.Loading (V := Nat) 1 5)] ∧
    (lookupStep (fun k => k) [((1 : Nat), CacheEntry.Loading (V := Nat) 1 5)] 1 0 9).newLoad
        = none ∧
    some (lookupStep (fun k => k) [((1 : Nat), CacheEntry.Loading (V := Nat) 1 5)] 1 0 9).ret
        = dedupRet (mapGet [((1 : Nat), CacheEntry.Loading (V := Nat) 1 5)] 1) 0 := by
  have h := lookup_dedup_frame (fun k => k)
    [((1 : Nat), CacheEntry.Loading (V := Nat) 1 5)] 1 0 9 (by simp [mapGet, dedupCase])
  exact ⟨h.1, h.2.1, h.2.2.1⟩

/-- C8: a lookup that finds a `Revalidating` entry classified `Expired`
replaces it in the Store with a `Loading` entry carrying the same pending
promise (the expired value reference is dropped), starts no new loader
invocation, and awaits that promise; on resolution the caller receives the
resulting `Present` entry classified at resolution time. -/
theorem lookup_revalidating_expired {K V SK : Type} [DecidableEq SK]
    (storeKeyFn : K → SK) (cache : List (SK × CacheEntry K V)) (key : K)
    (now freshP : Nat) (k : K) (r : Result V) (cA p : Nat)
    (hget : mapGet cache (storeKeyFn key) = some (CacheEntry.Revalidating k r cA p))
    (hexp : cacheEntryState now r cA = State.Expired) :
    (lookupStep storeKeyFn cache key now freshP).cache =
      mapSet cache (storeKeyFn key) (mkLoading key p) ∧
    (lookupStep storeKeyFn cache key now freshP).newLoad = none ∧
    (lookupStep storeKeyFn cache key now freshP).ret = LookupRet.awaitP p ∧
    (∀ k0 r0 c0 outcome rNow,
      outcome p = POutcome.resolved k0 r0 c0 →
      finalizeRet (lookupStep storeKeyFn cache key now freshP).ret outcome rNow =
        some (Except.ok (CacheEntry.Present k0 r0 c0, cacheEntryState rNow r0 c0))) := by
  refine ⟨?_, ?_, ?_, ?_⟩ <;>
    simp [lookupStep, hget, hexp, finalizeRet]
  intro k0 r0 c0 outcome rNow hout
  simp [hout]

/-- Witness for C8 at a concrete store: the `Revalidating` entry of key 1
(expired at time 40) is downgraded to `Loading` with the same promise 9. -/
theorem lookup_revalidating_expired_witness :
    (lookupStep (fun k => k) [((1 : Nat), CacheEntry.Revalidating 1 rSup 15 9)] 1 40 77).cache
        = mapSet [((1 : Nat), CacheEntry.Revalidating 1 rSup 15 9)] 1 (mkLoading 1 9) ∧
    (lookupStep (fun k => k) [((1 : Nat), CacheEntry.Revalidating 1 rSup 15 9)] 1 40 77).newLoad
        = none ∧
    (lookupStep (fun k => k) [((1 : Nat), CacheEntry.Revalidating 1 rSup 15 9)] 1 40 77).ret
        = LookupRet.awaitP 9 := by
  have h := lookup_revalidating_expired (fun k => k)
    [((1 : Nat), CacheEntry.Revalidating 1 rSup 15 9)] 1 40 77 1 rSup 15 9
    (by decide) (by decide)
  exact ⟨h.1, h.2.1, h.2.2.1⟩

/-- Specification predicate (C5's precondition): the lookup hits an uncached
key or a `Present` entry classified `Expired` — exactly the cases in which
`lookup` calls `startLoading`. -/
def loadTrigger {K V : Type} (e : Option (CacheEntry K V)) (now : Nat) : Prop :=
  match e with
  | none => True
  | some (CacheEntry.Present _ r cA) => cacheEntryState now r cA = State.Expired
  | _ => False

/-- C5: a lookup for an uncached or `Present`-and-`Expired` key starts a
loader invocation (promise `freshP`), stores a `Loading` entry with that
shared promise, and awaits it; every concurrent lookup awaits the same
promise without starting another load; if the promise rejects, the
rejection is propagated verbatim to every awaiting caller, the failure
handler removes the entry from the Store, and the next lookup for that key
starts a fresh load. -/
theorem load_failure_protocol {K V SK : Type} [DecidableEq SK]
    (storeKeyFn : K → SK) (cache : List (SK × CacheEntry K V)) (key : K)
    (now freshP : Nat) (hnd : keysNodup cache)
    (h : loadTrigger (mapGet cache (storeKeyFn key)) now) :
    (lookupStep storeKeyFn cache key now freshP).newLoad = some freshP ∧
    (lookupStep storeKeyFn cache key now freshP).ret = LookupRet.awaitP freshP ∧
    mapGet (lookupStep storeKeyFn cache key now freshP).cache (storeKeyFn key)
      = some (mkLoading key freshP) ∧
    (∀ now2 p2,
      (lookupStep storeKeyFn (lookupStep storeKeyFn cache key now freshP).cache
          key now2 p2).ret = LookupRet.awaitP freshP ∧
      (lookupStep storeKeyFn (lookupStep storeKeyFn cache key now freshP).cache
          key now2 p2).newLoad = none) ∧
    (∀ outcome err rNow, outcome freshP = POutcome.rejected err →
      finalizeRet (lookupStep storeKeyFn cache key now freshP).ret outcome rNow
        = some (Except.error err)) ∧
    mapGet (loadFailure (lookupStep storeKeyFn cache key now freshP).cache
        (storeKeyFn key)) (storeKeyFn key) = none ∧
    (∀ now3 p3,
      (lookupStep storeKeyFn
          (loadFailure (lookupStep storeKeyFn cache key now freshP).cache (storeKeyFn key))
          key now3 p3).newLoad = some p3) := by
  have hres : lookupStep storeKeyFn cache key now freshP
      = startLoading cache (storeKeyFn key) key freshP := by
    cases hget : mapGet cache (storeKeyFn key) with
    | none => exact lookupStep_none storeKeyFn cache key now freshP hget
    | some e =>
      rw [hget] at h
      cases e with
      | Loading k p => exact absurd h (by simp [loadTrigger])
      | Present k r cA =>
        exact lookupStep_present_expired storeKeyFn cache key now freshP k r cA hget h
      | Revalidating k r cA p => exact absurd h (by simp [loadTrigger])
  have hcache : (lookupStep storeKeyFn cache key now freshP).cache
      = mapSet cache (storeKeyFn key) (mkLoading key freshP) := by
    rw [hres]; rfl
  have hget2 : mapGet (lookupStep storeKeyFn cache key now freshP).cache (storeKeyFn key)
      = some (mkLoading key freshP) := by
    rw [hcache]; exact mapGet_mapSet_self cache (storeKeyFn key) (mkLoading key freshP)
  have hnone : mapGet (loadFailure (lookupStep storeKeyFn cache key now freshP).cache
      (storeKeyFn key)) (storeKeyFn key) = none := by
    rw [hcache]
    exact mapGet_mapDelete_self _ _
      (keysNodup_mapSet cache (storeKeyFn key) (mkLoading key freshP) hnd)
  refine ⟨by rw [hres]; rfl, by rw [hres]; rfl, hget2, ?_, ?_, hnone, ?_⟩
  · intro now2 p2
    rw [lookupStep_loading storeKeyFn (lookupStep storeKeyFn cache key now freshP).cache
      key now2 p2 key freshP hget2]
    exact ⟨rfl, rfl⟩
  · intro outcome err rNow hout
    rw [hres]
    simp [startLoading, finalizeRet, hout]
  · intro now3 p3
    rw [lookupStep_none storeKeyFn
      (loadFailure (lookupStep storeKeyFn cache key now freshP).cache (storeKeyFn key))
      key now3 p3 hnone]
    rfl

/-- Witness for C5 on the empty store: a lookup for key 1 starts load 5,
stores `Loading`, and after the failure handler runs the store has no entry
for key 1. -/
theorem load_failure_protocol_witness :
    (lookupStep (fun k => k) ([] : List (Nat × CacheEntry Nat Nat)) 1 0 5).newLoad
        = some 5 ∧
    (lookupStep (fun k => k) ([] : List (Nat × CacheEntry Nat Nat)) 1 0 5).ret
        = LookupRet.awaitP 5 ∧
    mapGet (lookupStep (fun k => k) ([] : List (Nat × CacheEntry Nat Nat)) 1 0 5).cache 1
        = some (mkLoading 1 5) ∧
    mapGet (loadFailure
        (lookupStep (fun k => k) ([] : List (Nat × CacheEntry Nat Nat)) 1 0 5).cache 1) 1
        = none := by
  have h := load_failure_protocol (fun k => k)
    ([] : List (Nat × CacheEntry Nat Nat)) 1 0 5 keysNodup_nil
    (by simp [mapGet, loadTrigger])
  exact ⟨h.1, h.2.1, h.2.2.1, h.2.2.2.2.2.1⟩

/-- C6: a lookup on a `Present`-and-`Stale` entry starts a background
revalidation but returns the current stale entry immediately, so the
revalidation's failure is never surfaced to that caller (its result is
`ok` under every promise-outcome assignment); the failure handler
re-classifies the captured pre-revalidation entry at failure time: if
`Expired` it removes the store slot, otherwise it restores the
pre-revalidation entry and re-notifies the evictor with the entry's
existing timestamps. -/
theorem revalidation_failure_protocol {K V SK : Type} [DecidableEq SK]
    (storeKeyFn : K → SK) (cache : List (SK × CacheEntry K V)) (key : K)
    (now freshP : Nat) (k : K) (r : Result V) (cA : Nat)
    (hget : mapGet cache (storeKeyFn key) = some (CacheEntry.Present k r cA))
    (hstale : cacheEntryState now r cA = State.Stale) :
    (lookupStep storeKeyFn cache key now freshP).ret
      = LookupRet.immediate (CacheEntry.Present k r cA) State.Stale ∧
    (lookupStep storeKeyFn cache key now freshP).newLoad = some freshP ∧
    (∀ outcome rNow,
      finalizeRet (lookupStep storeKeyFn cache key now freshP).ret outcome rNow
        = some (Except.ok (CacheEntry.Present k r cA, State.Stale))) ∧
    (∀ (c : List (SK × CacheEntry K V)) ev now', keysNodup c →
      cacheEntryState now' r cA = State.Expired →
      mapGet (revalidateFailure c ev (storeKeyFn key) k r cA now').1 (storeKeyFn key)
        = none) ∧
    (∀ (c : List (SK × CacheEntry K V)) ev now',
      cacheEntryState now' r cA ≠ State.Expired →
      (revalidateFailure c ev (storeKeyFn key) k r cA now').1
        = mapSet c (storeKeyFn key) (CacheEntry.Present k r cA) ∧
      (revalidateFailure c ev (storeKeyFn key) k r cA now').2
        = scheduleEvictor ev (storeKeyFn key) r cA) := by
  refine ⟨?_, ?_, ?_, ?_, ?_⟩
  · simp [lookupStep, hget, hstale]
  · simp [lookupStep, hget, hstale]
  · intro outcome rNow
    simp [lookupStep, hget, hstale, finalizeRet]
  · intro c ev now' hndc hexp
    simp only [revalidateFailure, hexp, if_pos rfl]
    exact mapGet_mapDelete_self c (storeKeyFn key) hndc
  · intro c ev now' hne
    constructor <;> simp [revalidateFailure, hne]

/-- Witness for C6 at a concrete store: key 1 holds a stale `Present` entry
(createdAt 15, maxAge 10, swr 5) looked up at time 27; the handler at time
28 (still `Stale`) restores the old entry and re-notifies the evictor. -/
theorem revalidation_failure_protocol_witness :
    (lookupStep (fun k => k) [((1 : Nat), CacheEntry.Present 1 rSup 15)] 1 27 9).ret
        = LookupRet.immediate (CacheEntry.Present 1 rSup 15) State.Stale ∧
    (lookupStep (fun k => k) [((1 : Nat), CacheEntry.Present 1 rSup 15)] 1 27 9).newLoad
        = some 9 ∧
    (revalidateFailure ([] : List (Nat × CacheEntry Nat Nat)) none 1 1 rSup 15 28).1
        = mapSet ([] : List (Nat × CacheEntry Nat Nat)) 1 (CacheEntry.Present 1 rSup 15) ∧
    (revalidateFailure ([] : List (Nat × CacheEntry Nat Nat)) none 1 1 rSup 15 28).2
        = scheduleEvictor none 1 rSup 15 := by
  have h := revalidation_failure_protocol (fun k => k)
    [((1 : Nat), CacheEntry.Present 1 rSup 15)] 1 27 9 1 rSup 15
    (by decide) (by decide)
  have h5 := h.2.2.2.2 ([] : List (Nat × CacheEntry Nat Nat)) none 28 (by decide)
  exact ⟨h.1, h.2.1, h5.1, h5.2⟩

/-- C10: starting a revalidation for a `Present` entry writes a
`Revalidating` entry with the same `key`, `result` and `createdAt` — only
the kind tag and the pending promise are new — and every concurrent lookup
during the revalidation (while the entry is not yet `Expired`) observes the
same value and timestamps as before the revalidation began. -/
theorem revalidation_preserves_entry {K V SK : Type} [DecidableEq SK]
    (storeKeyFn : K → SK) (cache : List (SK × CacheEntry K V)) (key : K)
    (now freshP : Nat) (k : K) (r : Result V) (cA : Nat)
    (hget : mapGet cache (storeKeyFn key) = some (CacheEntry.Present k r cA))
    (hstale : cacheEntryState now r cA = State.Stale) :
    mapGet (lookupStep storeKeyFn cache key now freshP).cache (storeKeyFn key)
      = some (CacheEntry.Revalidating k r cA freshP) ∧
    (∀ now2 p2, cacheEntryState now2 r cA ≠ State.Expired →
      (lookupStep storeKeyFn (lookupStep storeKeyFn cache key now freshP).cache
          key now2 p2).ret
        = LookupRet.immediate (CacheEntry.Revalidating k r cA freshP)
            (cacheEntryState now2 r cA)) := by
  have hcache : (lookupStep storeKeyFn cache key now freshP).cache
      = mapSet cache (storeKeyFn key) (CacheEntry.Revalidating k r cA freshP) := by
    simp [lookupStep, hget, hstale, mkRevalidating]
  have hget2 : mapGet (lookupStep storeKeyFn cache key now freshP).cache (storeKeyFn key)
      = some (CacheEntry.Revalidating k r cA freshP) := by
    rw [hcache]
    exact mapGet_mapSet_self cache (storeKeyFn key) (CacheEntry.Revalidating k r cA freshP)
  refine ⟨hget2, ?_⟩
  intro now2 p2 hne
  rw [lookupStep_revalidating_usable storeKeyFn
    (lookupStep storeKeyFn cache key now freshP).cache key now2 p2 k r cA freshP
    hget2 hne]

/-- Witness for C10 at a concrete store: after the stale lookup at time 27,
key 1 maps to a `Revalidating` entry with the original result and
`createdAt = 15`, and a concurrent lookup at time 28 observes it. -/
theorem revalidation_preserves_entry_witness :
    mapGet (lookupStep (fun k => k) [((1 : Nat), CacheEntry.Present 1 rSup 15)] 1 27 9).cache 1
        = some (CacheEntry.Revalidating 1 rSup 15 9) ∧
    (lookupStep (fun k => k)
        (lookupStep (fun k => k) [((1 : Nat), CacheEntry.Present 1 rSup 15)] 1 27 9).cache
        1 28 3).ret
      = LookupRet.immediate (CacheEntry.Revalidating 1 rSup 15 9)
          (cacheEntryState 28 rSup 15) := by
  have h := revalidation_preserves_entry (fun k => k)
    [((1 : Nat), CacheEntry.Present 1 rSup 15)] 1 27 9 1 rSup 15
    (by decide) (by decide)
  exact ⟨h.1, h.2 28 3 (by decide)⟩

end SWRC
